import Mathlib

/-!
Verification development for the OpenRecord frontend core:
the highlight segmenter (`renderTextWithHighlights` in `App.tsx`),
the review store actions (`useStore.ts`), the analysis orchestrator
(`useDocumentAnalysis` in `DocumentReview.tsx`) and the redaction
applier (`handleApplyRedactions`).

Texts are modelled as `List Char`; JavaScript numbers appearing as
confidences are modelled as `ℚ`, integral positions as `Int`/`Nat`.
JavaScript truthiness of numbers and strings is modelled for the
values that actually occur (`0`, the empty string); `NaN` does not
arise in the modelled code paths.
-/

namespace OpenRecord

/-! ### Basic list utilities mirroring the JavaScript string primitives -/

/-- Boolean prefix test on character lists (used to model a substring
match of a pattern at a fixed position). -/
def isPrefixList : List Char → List Char → Bool
  | [], _ => true
  | _ :: _, [] => false
  | a :: as, b :: bs => a = b && isPrefixList as bs

/-- `searchFrom s p k` models JavaScript `s.indexOf(p, k)` for `k ≤ s.length`:
the least position `i ≥ k` at which `p` occurs in `s`, if any. -/
def searchFrom (s p : List Char) (k : Nat) : Option Nat :=
  ((List.range (s.length + 1)).filter (fun i => decide (k ≤ i))).find?
    (fun i => isPrefixList p (s.drop i))

/-- `jsIndexOf l a` models JavaScript `Array.prototype.indexOf`:
index of the first occurrence of `a` in `l`, `-1` when absent. -/
def jsIndexOf {α : Type} [DecidableEq α] : List α → α → Int
  | [], _ => -1
  | x :: xs, a =>
    if x = a then 0
    else
      let r := jsIndexOf xs a
      if r = -1 then -1 else r + 1

/-- Pairs every element with its index, starting at `k` (models the
index argument of JavaScript `Array.prototype.map`). -/
def enumFrom {α : Type} (k : Nat) : List α → List (Nat × α)
  | [] => []
  | a :: as => (k, a) :: enumFrom (k + 1) as

/-! ### Data model of `App.tsx` -/

/-- The `RedactionItem` interface of `App.tsx`. -/
structure RedactionItem where
  page : Int
  x1 : Int
  y1 : Int
  x2 : Int
  y2 : Int
  category : List Char
  text : List Char
  confidence : ℚ
  deriving DecidableEq, Repr

/-- A redaction item tagged with the `globalIndex` field added by the
`.map` step of `renderTextWithHighlights`. -/
structure TaggedRedaction where
  item : RedactionItem
  globalIndex : Int
  deriving DecidableEq, Repr

/-- One output segment of the highlight segmenter:
`{text, isRedacted, redactionIndex?}`. -/
structure Segment where
  text : List Char
  isRedacted : Bool
  redactionIndex : Option Int
  deriving DecidableEq, Repr

/-! ### The highlight segmenter (`renderTextWithHighlights`, `App.tsx`) -/

/-- The `globalIndex` computation
`analysis?.redactions.indexOf(r) || idx`: when `analysis` is absent the
optional chain yields `undefined` (falsy), and an `indexOf` result of
`0` is falsy as well, so in both cases the local map index `idx` is
used instead. -/
def tagRedactions (analysisReds : Option (List RedactionItem)) :
    List (Nat × RedactionItem) → List TaggedRedaction :=
  List.map (fun p =>
    { item := p.2
      globalIndex :=
        match analysisReds with
        | none => (p.1 : Int)
        | some ar =>
          let g := jsIndexOf ar p.2
          if g = 0 then (p.1 : Int) else g })

/-- Position of the first occurrence of a detection's text, the sort
key of the `.sort((a, b) => aPos - bPos)` step. -/
def firstPos (text p : List Char) : Nat :=
  (searchFrom text p 0).getD 0

/-- Insertion step of a stable ascending sort by `firstPos` (ES2019
`Array.prototype.sort` is stable). -/
def insertByPos (text : List Char) (a : TaggedRedaction) :
    List TaggedRedaction → List TaggedRedaction
  | [] => [a]
  | b :: bs =>
    if firstPos text a.item.text < firstPos text b.item.text then a :: b :: bs
    else b :: insertByPos text a bs

/-- Stable sort by first-occurrence position. -/
def sortByPos (text : List Char) (l : List TaggedRedaction) : List TaggedRedaction :=
  l.foldr (insertByPos text) []

/-- The `sortedRedactions` pipeline of `renderTextWithHighlights`:
tag with `globalIndex`, keep the detections whose text occurs in the
page text (`text.includes(r.text)`), sort by first occurrence. -/
def sortedRedactions (analysisReds : Option (List RedactionItem))
    (text : List Char) (reds : List RedactionItem) : List TaggedRedaction :=
  sortByPos text
    ((tagRedactions analysisReds (enumFrom 0 reds)).filter
      (fun t => (searchFrom text t.item.text 0).isSome))

/-- The cursor walk over the sorted detections (`sortedRedactions.forEach`
plus the trailing-text step): emit a plain segment for the text strictly
between the cursor and a found match, a redacted segment for the match,
skip detections whose text is not found at or after the cursor, and emit
the remaining text as a final plain segment. -/
def emitSegments (text : List Char) : List TaggedRedaction → Nat → List Segment
  | [], cursor =>
    if cursor < text.length then [⟨text.drop cursor, false, none⟩] else []
  | t :: ts, cursor =>
    match searchFrom text t.item.text cursor with
    | none => emitSegments text ts cursor
    | some s =>
      (if cursor < s then [(⟨(text.drop cursor).take (s - cursor), false, none⟩ : Segment)] else []) ++
      ⟨t.item.text, true, some t.globalIndex⟩ :: emitSegments text ts (s + t.item.text.length)

/-- `renderTextWithHighlights` of `App.tsx`, as the list of segments it
renders.  An empty detection list short-circuits to the whole text as a
single plain node. -/
def renderTextWithHighlights (analysisReds : Option (List RedactionItem))
    (text : List Char) (reds : List RedactionItem) : List Segment :=
  if reds = [] then [⟨text, false, none⟩]
  else emitSegments text (sortedRedactions analysisReds text reds) 0

/-- Concatenation of the texts of a list of segments. -/
def segmentsText (l : List Segment) : List Char :=
  (l.map Segment.text).flatten

/-- Instrumented cursor walk recording, for each emitted redacted
segment, the half-open character range `[start, end)` of the input text
it covers. -/
def emitRanges (text : List Char) : List TaggedRedaction → Nat → List (Nat × Nat)
  | [], _ => []
  | t :: ts, cursor =>
    match searchFrom text t.item.text cursor with
    | none => emitRanges text ts cursor
    | some s =>
      (s, s + t.item.text.length) :: emitRanges text ts (s + t.item.text.length)

/-- The character ranges of the redacted segments produced by
`renderTextWithHighlights`. -/
def redactedRanges (analysisReds : Option (List RedactionItem))
    (text : List Char) (reds : List RedactionItem) : List (Nat × Nat) :=
  if reds = [] then []
  else emitRanges text (sortedRedactions analysisReds text reds) 0


/-! ### Data model of the review store (`useStore.ts`) -/

/-- The `Detection` interface: optional fields (`pattern_name`,
`context`) are `Option`s, all others are present. -/
structure Detection where
  text : List Char
  category : List Char
  confidence : ℚ
  page_number : Int
  start_pos : Int
  end_pos : Int
  detection_reason : List Char
  pattern_name : Option (List Char)
  context : Option (List Char)
  approved : Bool
  id : List Char
  deriving DecidableEq, Repr

/-- The `Analysis` interface. -/
structure Analysis where
  id : List Char
  document_id : List Char
  total_detections : Int
  high_confidence_count : Int
  categories : List (List Char)
  detections : List Detection
  processing_time : ℚ
  deriving DecidableEq, Repr

/-- The `Document` interface; the free-form metadata mapping is an
association list of string keys to string values. -/
structure Document where
  id : List Char
  filename : List Char
  size : Int
  page_count : Int
  uploaded_at : List Char
  metadata : List (List Char × List Char)
  deriving DecidableEq, Repr

/-- The `RedactionConfig` interface (its recognized keys; the
index-signature extras are not used by the modelled code). -/
structure RedactionConfig where
  document_type : List Char
  confidence_threshold : ℚ
  enabled_categories : List (List Char)
  use_ai_detection : Bool
  use_pattern_detection : Bool
  use_context_analysis : Bool
  deriving DecidableEq, Repr

/-- The store state (`AppState` in `useStore.ts`).  The
`Record<string, Analysis>` of `analyses` is an insertion-ordered
association list, as JavaScript objects are. -/
structure AppState where
  currentDocument : Option Document
  currentAnalysis : Option Analysis
  documents : List Document
  analyses : List (List Char × Analysis)
  isLoading : Bool
  error : Option (List Char)
  redactionConfig : RedactionConfig
  deriving DecidableEq, Repr

/-- `m[k] = v` on a JavaScript object: replace the entry in place when
the key exists, append otherwise. -/
def recordSet : List (List Char × Analysis) → List Char → Analysis →
    List (List Char × Analysis)
  | [], k, v => [(k, v)]
  | p :: ps, k, v => if p.1 = k then (k, v) :: ps else p :: recordSet ps k v

/-- `m[k]` on a JavaScript object. -/
def recordLookup : List (List Char × Analysis) → List Char → Option Analysis
  | [], _ => none
  | p :: ps, k => if p.1 = k then some p.2 else recordLookup ps k

/-! ### Store actions (`useStore.ts`) -/

/-- `setCurrentAnalysis`: replaces the pointer, nothing else. -/
def setCurrentAnalysis (st : AppState) (a : Option Analysis) : AppState :=
  { st with currentAnalysis := a }

/-- `setCurrentDocument`: replaces the pointer, nothing else. -/
def setCurrentDocument (st : AppState) (d : Option Document) : AppState :=
  { st with currentDocument := d }

/-- The fresh detection id `det_${Date.now()}_${Math.random().toString(36).substr(2, 9)}`
minted by `addAnalysis`; `suffix i` models the timestamp/random part
produced for the `i`-th detection. -/
def detId (suffix : Nat → List Char) (i : Nat) : List Char :=
  "det_".data ++ suffix i

/-- `addAnalysis(analysis)`: maps over `analysis.detections` replacing
each detection's `id` with a freshly minted one, then stores the
resulting analysis under `analyses[analysis.id]`. -/
def addAnalysis (gen : Nat → List Char) (st : AppState) (analysis : Analysis) :
    AppState :=
  let detectionsWithIds :=
    (enumFrom 0 analysis.detections).map (fun p => { p.2 with id := gen p.1 })
  { st with
    analyses := recordSet st.analyses analysis.id
      { analysis with detections := detectionsWithIds } }

/-- A `Partial<Detection>` as passed to `updateDetection`: present keys
are `some`. -/
structure DetectionUpdate where
  text : Option (List Char) := none
  category : Option (List Char) := none
  confidence : Option ℚ := none
  page_number : Option Int := none
  start_pos : Option Int := none
  end_pos : Option Int := none
  detection_reason : Option (List Char) := none
  pattern_name : Option (Option (List Char)) := none
  context : Option (Option (List Char)) := none
  approved : Option Bool := none
  id : Option (List Char) := none
  deriving DecidableEq, Repr

/-- `Object.assign(detection, updates)`: every key present in the
update overwrites the detection's field. -/
def applyUpdate (d : Detection) (u : DetectionUpdate) : Detection :=
  { text := u.text.getD d.text
    category := u.category.getD d.category
    confidence := u.confidence.getD d.confidence
    page_number := u.page_number.getD d.page_number
    start_pos := u.start_pos.getD d.start_pos
    end_pos := u.end_pos.getD d.end_pos
    detection_reason := u.detection_reason.getD d.detection_reason
    pattern_name := u.pattern_name.getD d.pattern_name
    context := u.context.getD d.context
    approved := u.approved.getD d.approved
    id := u.id.getD d.id }

/-- The `findIndex`-then-mutate step of `updateDetection`: update the
first detection whose `id` matches, `none` when no detection matches
(`findIndex` returned `-1`). -/
def updateInList (detectionId : List Char) (u : DetectionUpdate) :
    List Detection → Option (List Detection)
  | [] => none
  | d :: ds =>
    if d.id = detectionId then some (applyUpdate d u :: ds)
    else (updateInList detectionId u ds).map (fun l => d :: l)

/-- `updateDetection(detectionId, updates)`: searches only
`currentAnalysis`; on a hit, mutates the detection in place and writes
the mutated analysis back under `analyses[currentAnalysis.id]`;
otherwise leaves the state untouched. -/
def updateDetection (st : AppState) (detectionId : List Char)
    (u : DetectionUpdate) : AppState :=
  match st.currentAnalysis with
  | none => st
  | some ca =>
    match updateInList detectionId u ca.detections with
    | none => st
    | some ds =>
      let ca' := { ca with detections := ds }
      { st with
        currentAnalysis := some ca'
        analyses := recordSet st.analyses ca'.id ca' }

/-- `approveAllDetections()`: sets `approved := true` on every detection
of `currentAnalysis` and writes the analysis back under its id; no-op
when there is no current analysis. -/
def approveAllDetections (st : AppState) : AppState :=
  match st.currentAnalysis with
  | none => st
  | some ca =>
    let ca' := { ca with detections := ca.detections.map (fun d => { d with approved := true }) }
    { st with
      currentAnalysis := some ca'
      analyses := recordSet st.analyses ca'.id ca' }

/-- `rejectAllDetections()`: sets `approved := false` on every detection
of `currentAnalysis` and writes the analysis back under its id; no-op
when there is no current analysis. -/
def rejectAllDetections (st : AppState) : AppState :=
  match st.currentAnalysis with
  | none => st
  | some ca =>
    let ca' := { ca with detections := ca.detections.map (fun d => { d with approved := false }) }
    { st with
      currentAnalysis := some ca'
      analyses := recordSet st.analyses ca'.id ca' }

/-! ### Response normalization and the analysis orchestrator
(`useDocumentAnalysis` in `DocumentReview.tsx`) -/

/-- A detection as returned by the external engine (the
`PartialDetection` type of `DocumentReview.tsx`): the normalized fields
may be absent. -/
structure RawDetection where
  text : List Char
  category : List Char
  confidence : Option ℚ
  page_number : Option Int
  start_pos : Option Int
  end_pos : Option Int
  detection_reason : Option (List Char)
  pattern_name : Option (List Char)
  context : Option (List Char)
  approved : Option Bool
  id : Option (List Char)
  deriving DecidableEq, Repr

/-- An engine response before normalization. -/
structure RawAnalysis where
  id : List Char
  document_id : List Char
  total_detections : Int
  high_confidence_count : Int
  categories : List (List Char)
  detections : List RawDetection
  processing_time : ℚ
  deriving DecidableEq, Repr

/-- JavaScript `x || dflt` on a possibly-absent string: the default is
used when the value is absent or is the empty string (both falsy). -/
def jsOrStr (x : Option (List Char)) (dflt : List Char) : List Char :=
  match x with
  | none => dflt
  | some s => if s = [] then dflt else s

/-- JavaScript `x || dflt` on a possibly-absent number: the default is
used when the value is absent or is `0` (both falsy). -/
def jsOrRat (x : Option ℚ) (dflt : ℚ) : ℚ :=
  match x with
  | none => dflt
  | some v => if v = 0 then dflt else v

/-- JavaScript `x || dflt` on a possibly-absent integer. -/
def jsOrInt (x : Option Int) (dflt : Int) : Int :=
  match x with
  | none => dflt
  | some v => if v = 0 then dflt else v

/-- The per-detection normalization of `formattedResult` in
`startAnalysis`: `id: d.id || detection-${index}-${Date.now()}`,
`approved: d.approved !== false`, `detection_reason: d.detection_reason
|| 'Automatically detected'`, `page_number/start_pos/end_pos: d.x || 0`,
`confidence: d.confidence || 0.9`.  `idGen i` models the fresh id
interpolated for index `i`. -/
def formatDetection (idGen : Nat → List Char) (i : Nat) (d : RawDetection) :
    Detection :=
  { text := d.text
    category := d.category
    confidence := jsOrRat d.confidence (9 / 10)
    page_number := jsOrInt d.page_number 0
    start_pos := jsOrInt d.start_pos 0
    end_pos := jsOrInt d.end_pos 0
    detection_reason := jsOrStr d.detection_reason "Automatically detected".data
    pattern_name := d.pattern_name
    context := d.context
    approved := d.approved ≠ some false
    id := jsOrStr d.id (idGen i) }

/-- The `formattedResult` normalization of a successful engine
response: spread of the response with its detections normalized. -/
def formatAnalysis (idGen : Nat → List Char) (r : RawAnalysis) : Analysis :=
  { id := r.id
    document_id := r.document_id
    total_detections := r.total_detections
    high_confidence_count := r.high_confidence_count
    categories := r.categories
    detections := (enumFrom 0 r.detections).map (fun p => formatDetection idGen p.1 p.2)
    processing_time := r.processing_time }

/-- State of the analysis orchestrator: the `isAnalyzingRef` single-
flight guard, the count of detection requests issued so far, and the
review store the hook commits into. -/
structure OrchState where
  guard : Bool
  networkCalls : Nat
  store : AppState
  deriving DecidableEq, Repr

/-- Outcome of the synchronous prefix of `startAnalysis`. -/
inductive BeginResult where
  | skipped
  | started
  deriving DecidableEq, Repr

/-- The synchronous prefix of `startAnalysis(docId)`, up to and
including issuing the detection request: when the guard is set the call
returns `null` immediately (no request, no state change); otherwise it
sets the guard and issues one request. -/
def startAnalysisBegin (s : OrchState) : OrchState × BeginResult :=
  if s.guard then (s, .skipped)
  else ({ s with guard := true, networkCalls := s.networkCalls + 1 }, .started)

/-- The continuation of `startAnalysis` after the awaited request
settles: on success it normalizes the response, commits it via
`setCurrentAnalysis` and returns it; on failure it commits nothing and
re-throws; the `finally` block clears the guard in both cases. -/
def startAnalysisResume (idGen : Nat → List Char) (s : OrchState)
    (response : Except (List Char) RawAnalysis) :
    OrchState × Except (List Char) Analysis :=
  match response with
  | .error e => ({ s with guard := false }, .error e)
  | .ok raw =>
    let formatted := formatAnalysis idGen raw
    ({ s with
        guard := false
        store := setCurrentAnalysis s.store (some formatted) },
      .ok formatted)

/-! ### The redaction applier (`handleApplyRedactions`, `DocumentReview.tsx`) -/

/-- An opaque response blob. -/
abbrev Blob := List Nat

/-- The per-detection defaulting applied to the wire payload:
`detection_reason: d.detection_reason || 'Manually approved'`,
`id: d.id || manual-...`, `approved: true`,
`pattern_name: d.pattern_name || ''`, `context: d.context || ''`. -/
def prepareRedaction (manualId : List Char) (d : Detection) : Detection :=
  { d with
    detection_reason :=
      if d.detection_reason = [] then "Manually approved".data else d.detection_reason
    id := if d.id = [] then manualId else d.id
    approved := true
    pattern_name := some (jsOrStr d.pattern_name [])
    context := some (jsOrStr d.context []) }

/-- Observable outcome of one `handleApplyRedactions` run. -/
structure ApplyOutcome where
  networkCalled : Bool
  payload : Option (List Detection)
  download : Option (List Char)
  errorToast : Option (List Char)
  deriving DecidableEq, Repr

/-- `handleApplyRedactions`: rejects a missing document/analysis and an
empty approved subset before any network call; otherwise sends the
prepared approved detections and, on success, triggers a browser
download named `redacted_<filename>`; on failure triggers nothing. -/
def handleApplyRedactions (manualId : List Char)
    (currentDocument : Option Document) (currentAnalysis : Option Analysis)
    (netResult : Except (List Char) Blob) : ApplyOutcome :=
  match currentDocument, currentAnalysis with
  | some doc, some ca =>
    let approved := ca.detections.filter (fun d => d.approved)
    if approved = [] then
      { networkCalled := false, payload := none, download := none
        errorToast := some "No redactions approved".data }
    else
      match netResult with
      | .ok _ =>
        { networkCalled := true
          payload := some (approved.map (prepareRedaction manualId))
          download := some ("redacted_".data ++ doc.filename)
          errorToast := none }
      | .error _ =>
        { networkCalled := true
          payload := some (approved.map (prepareRedaction manualId))
          download := none
          errorToast := none }
  | _, _ =>
    { networkCalled := false, payload := none, download := none
      errorToast := some "No document or analysis available".data }

/-! ### Concrete instances used by examples, witnesses and counterexamples -/

/-- The default redaction configuration of `useStore.ts`. -/
def defaultRedactionConfig : RedactionConfig :=
  { document_type := "general".data
    confidence_threshold := 1 / 10
    enabled_categories :=
      ["N.J.S.A. 47:1A-1".data, "N.J.S.A. 47:1A-1.1(20)".data,
       "N.J.S.A. 47:1A-1.1(5)".data, "N.J.S.A. 47:1A-1.1(28)".data,
       "N.J.S.A. 47:1A-1.1(9)".data, "N.J.S.A. 47:1A-1.1(23)".data]
    use_ai_detection := true
    use_pattern_detection := true
    use_context_analysis := true }

/-- The initial store state of `useStore.ts`. -/
def initialState : AppState :=
  { currentDocument := none
    currentAnalysis := none
    documents := []
    analyses := []
    isLoading := false
    error := none
    redactionConfig := defaultRedactionConfig }

/-- The detection `{text: "John Smith", id: "d1"}` of the worked
segmenter example (its identity is its index, 0, in the analysis's
redaction list). -/
def exampleDetection1 : RedactionItem :=
  { page := 0, x1 := 0, y1 := 0, x2 := 0, y2 := 0
    category := "N.J.S.A. 47:1A-1".data
    text := "John Smith".data, confidence := 1 }

/-- The detection `{text: "123-45-6789", id: "d2"}` of the worked
segmenter example (index 1 in the analysis's redaction list). -/
def exampleDetection2 : RedactionItem :=
  { page := 0, x1 := 0, y1 := 0, x2 := 0, y2 := 0
    category := "N.J.S.A. 47:1A-1.1(20)".data
    text := "123-45-6789".data, confidence := 1 }

/-- The page text of the worked segmenter example. -/
def exampleText : List Char := "Name: John Smith, SSN: 123-45-6789".data

/-- A detection with text `"aa"`, index 0 of a two-element analysis
redaction list. -/
def overlapItemA : RedactionItem :=
  { page := 0, x1 := 0, y1 := 0, x2 := 0, y2 := 0
    category := "N.J.S.A. 47:1A-1".data, text := "aa".data, confidence := 1 }

/-- A detection with text `"bb"`, index 1 of the same list. -/
def overlapItemB : RedactionItem :=
  { page := 0, x1 := 0, y1 := 0, x2 := 0, y2 := 0
    category := "N.J.S.A. 47:1A-1".data, text := "bb".data, confidence := 1 }

/-- A stored detection that already carries the id `"d1"`. -/
def c3Detection : Detection :=
  { text := "John Smith".data
    category := "N.J.S.A. 47:1A-1".data
    confidence := 1
    page_number := 0, start_pos := 0, end_pos := 10
    detection_reason := "Automatically detected".data
    pattern_name := none, context := none
    approved := true
    id := "d1".data }

/-- An analysis whose single detection already has an id. -/
def c3Analysis : Analysis :=
  { id := "an1".data
    document_id := "doc1".data
    total_detections := 1
    high_confidence_count := 0
    categories := ["N.J.S.A. 47:1A-1".data]
    detections := [c3Detection]
    processing_time := 1 }

/-- An engine detection that supplies every field, with a supplied
confidence of `0`. -/
def c4Raw : RawDetection :=
  { text := "123-45-6789".data
    category := "N.J.S.A. 47:1A-1.1(20)".data
    confidence := some 0
    page_number := some 2
    start_pos := some 3
    end_pos := some 14
    detection_reason := some "pattern match".data
    pattern_name := some "ssn".data
    context := some "SSN: 123-45-6789".data
    approved := some true
    id := some "e1".data }

/-- An engine detection supplying a page number, used to witness the
normalization theorem. -/
def c4WitnessRaw : RawDetection :=
  { text := "Jane Doe".data
    category := "N.J.S.A. 47:1A-1".data
    confidence := some 1
    page_number := some 5
    start_pos := some 0
    end_pos := some 8
    detection_reason := none
    pattern_name := none
    context := none
    approved := none
    id := none }

/-- A raw engine response used in the orchestrator scenarios. -/
def c2Raw : RawAnalysis :=
  { id := "an2".data
    document_id := "doc1".data
    total_detections := 1
    high_confidence_count := 1
    categories := ["N.J.S.A. 47:1A-1".data]
    detections := [c4WitnessRaw]
    processing_time := 2 }

/-- An orchestrator at rest over the pristine store. -/
def idleOrch : OrchState :=
  { guard := false, networkCalls := 0, store := initialState }

/-- The rapid-succession schedule on the concrete orchestrator: a first
call begins, a second call begins while the first is in flight, then
the first call's request succeeds. -/
def c2Run : OrchState × Except (List Char) Analysis :=
  startAnalysisResume (fun _ => "g0".data)
    (startAnalysisBegin (startAnalysisBegin idleOrch).1).1 (.ok c2Raw)

/-- An approved stored detection with a non-empty id. -/
def c7Detection : Detection :=
  { text := "Jane Doe".data
    category := "N.J.S.A. 47:1A-1".data
    confidence := 1
    page_number := 0, start_pos := 0, end_pos := 8
    detection_reason := "Automatically detected".data
    pattern_name := none, context := none
    approved := true
    id := "det_1".data }

/-- A current analysis holding the single approved detection. -/
def c7Analysis : Analysis :=
  { id := "an3".data
    document_id := "doc_1".data
    total_detections := 1
    high_confidence_count := 0
    categories := ["N.J.S.A. 47:1A-1".data]
    detections := [c7Detection]
    processing_time := 1 }

/-- An analysis with no approved detections. -/
def c7EmptyAnalysis : Analysis :=
  { c7Analysis with
    detections := [{ c7Detection with approved := false }] }

/-- The current document `doc_1` with filename `report.pdf`. -/
def c7Document : Document :=
  { id := "doc_1".data
    filename := "report.pdf".data
    size := 1024
    page_count := 3
    uploaded_at := "2024-01-01".data
    metadata := [("page_count".data, "3".data)] }

/-- A store state whose current analysis is `c7Analysis`. -/
def reviewState : AppState :=
  { initialState with
    currentDocument := some c7Document
    currentAnalysis := some c7Analysis
    documents := [c7Document]
    analyses := [("an3".data, c7Analysis)] }

/-- The partial update `{approved: false}` passed by the reject
button. -/
def rejectUpdate : DetectionUpdate :=
  { approved := some false }

/-! ### Lemmas about the string primitives -/

theorem isPrefixList_eq_append {p l : List Char} (h : isPrefixList p l = true) :
    l = p ++ l.drop p.length := by
  induction p generalizing l with
  | nil => simp
  | cons a as ih =>
    cases l with
    | nil => simp [isPrefixList] at h
    | cons b bs =>
      simp only [isPrefixList, Bool.and_eq_true, decide_eq_true_eq] at h
      obtain ⟨hab, hrec⟩ := h
      simpa [hab] using ih hrec

theorem isPrefixList_length {p l : List Char} (h : isPrefixList p l = true) :
    p.length ≤ l.length := by
  have := isPrefixList_eq_append h
  have hl : l.length = p.length + (l.drop p.length).length := by
    conv_lhs => rw [this]
    simp
  omega

theorem searchFrom_spec {s p : List Char} {k i : Nat}
    (h : searchFrom s p k = some i) :
    k ≤ i ∧ i ≤ s.length ∧ isPrefixList p (s.drop i) = true := by
  have hpre := List.find?_some h
  have hmem := List.mem_of_find?_eq_some h
  rw [List.mem_filter] at hmem
  obtain ⟨hrange, hk⟩ := hmem
  rw [List.mem_range] at hrange
  refine ⟨by simpa using hk, by omega, hpre⟩

theorem takePrefix (p q : List Char) : (p ++ q).take p.length = p := by
  induction p with
  | nil => simp
  | cons a as ih => simp [ih]

/-! ### The segmenter partitions the text (claim C1) -/

theorem emitSegments_text (text : List Char) :
    ∀ (ts : List TaggedRedaction) (c : Nat), c ≤ text.length →
      segmentsText (emitSegments text ts c) = text.drop c := by
  intro ts
  induction ts with
  | nil =>
    intro c hc
    by_cases h : c < text.length
    · simp [emitSegments, h, segmentsText]
    · have hdrop : text.drop c = [] := List.drop_eq_nil_of_le (by omega)
      simp [emitSegments, h, segmentsText, hdrop]
  | cons t ts ih =>
    intro c hc
    cases hs : searchFrom text t.item.text c with
    | none =>
      simpa [emitSegments, hs] using ih c hc
    | some s =>
      obtain ⟨hks, hsl, hpre⟩ := searchFrom_spec hs
      have hdrop : text.drop s =
          t.item.text ++ text.drop (s + t.item.text.length) := by
        have h1 := isPrefixList_eq_append hpre
        rwa [List.drop_drop] at h1
      have hL : s + t.item.text.length ≤ text.length := by
        have h2 := isPrefixList_length hpre
        rw [List.length_drop] at h2
        omega
      have hres := ih (s + t.item.text.length) (by omega)
      have key : text.drop c =
          (text.drop c).take (s - c) ++
            (t.item.text ++ text.drop (s + t.item.text.length)) := by
        conv_lhs => rw [← List.take_append_drop (s - c) (text.drop c)]
        rw [List.drop_drop, Nat.add_sub_cancel' hks, hdrop]
      by_cases hcs : c < s
      · simp [emitSegments, hs, hcs, segmentsText] at hres ⊢
        rw [hres]
        exact key.symm
      · have hcseq : c = s := by omega
        subst hcseq
        simp [emitSegments, hs, hcs, segmentsText] at hres ⊢
        rw [hres]
        exact hdrop.symm

/-- C1: for every page text and every list of detections, concatenating
the texts of the segments produced by `renderTextWithHighlights` yields
exactly the input text. -/
theorem claim_C1_segmenter_partitions
    (analysisReds : Option (List RedactionItem))
    (text : List Char) (reds : List RedactionItem) :
    segmentsText (renderTextWithHighlights analysisReds text reds) = text := by
  unfold renderTextWithHighlights
  by_cases h : reds = []
  · simp [h, segmentsText]
  · simp only [h, if_false]
    simpa using emitSegments_text text (sortedRedactions analysisReds text reds) 0
      (Nat.zero_le _)

/-! ### Redacted segments never overlap (claim C6) -/

theorem emitRanges_mem (text : List Char) :
    ∀ (ts : List TaggedRedaction) (c : Nat) (r : Nat × Nat),
      r ∈ emitRanges text ts c → c ≤ r.1 ∧ r.1 ≤ r.2 ∧ r.2 ≤ text.length := by
  intro ts
  induction ts with
  | nil => intro c r hr; simp [emitRanges] at hr
  | cons t ts ih =>
    intro c r hr
    cases hs : searchFrom text t.item.text c with
    | none =>
      rw [emitRanges, hs] at hr
      exact ih c r hr
    | some s =>
      obtain ⟨hks, hsl, hpre⟩ := searchFrom_spec hs
      have hL : s + t.item.text.length ≤ text.length := by
        have h2 := isPrefixList_length hpre
        rw [List.length_drop] at h2
        omega
      rw [emitRanges, hs] at hr
      rcases List.mem_cons.mp hr with hr | hr
      · subst hr; exact ⟨hks, by omega, by omega⟩
      · have := ih (s + t.item.text.length) r hr
        exact ⟨by omega, this.2.1, this.2.2⟩

theorem emitRanges_pairwise (text : List Char) :
    ∀ (ts : List TaggedRedaction) (c : Nat),
      (emitRanges text ts c).Pairwise (fun r1 r2 => r1.2 ≤ r2.1) := by
  intro ts
  induction ts with
  | nil => intro c; simp [emitRanges]
  | cons t ts ih =>
    intro c
    cases hs : searchFrom text t.item.text c with
    | none => rw [emitRanges, hs]; exact ih c
    | some s =>
      rw [emitRanges, hs]
      refine List.Pairwise.cons ?_ (ih _)
      intro r hr
      exact (emitRanges_mem text ts _ r hr).1

theorem emitRanges_text (text : List Char) :
    ∀ (ts : List TaggedRedaction) (c : Nat),
      ((emitSegments text ts c).filter (fun sg => sg.isRedacted)).map Segment.text =
        (emitRanges text ts c).map (fun r => (text.drop r.1).take (r.2 - r.1)) := by
  intro ts
  induction ts with
  | nil =>
    intro c
    by_cases h : c < text.length <;> simp [emitSegments, emitRanges, h]
  | cons t ts ih =>
    intro c
    cases hs : searchFrom text t.item.text c with
    | none =>
      rw [emitSegments, emitRanges, hs]
      exact ih c
    | some s =>
      obtain ⟨hks, hsl, hpre⟩ := searchFrom_spec hs
      have hdrop : text.drop s =
          t.item.text ++ text.drop (s + t.item.text.length) := by
        have h1 := isPrefixList_eq_append hpre
        rwa [List.drop_drop] at h1
      have hslice : (text.drop s).take t.item.text.length = t.item.text := by
        rw [hdrop, takePrefix]
      rw [emitSegments, emitRanges, hs]
      by_cases hcs : c < s <;>
        simp [hcs, List.filter_append, ih, hslice]

/-- C6: for every input text and detection list, no two redacted
segments of `renderTextWithHighlights` cover overlapping character
ranges of the input: the ranges recorded by `redactedRanges` are
pairwise ordered and disjoint, and they are exactly the spans whose
slices are the redacted segments' texts. -/
theorem claim_C6_no_overlap
    (analysisReds : Option (List RedactionItem))
    (text : List Char) (reds : List RedactionItem) :
    (redactedRanges analysisReds text reds).Pairwise (fun r1 r2 => r1.2 ≤ r2.1) ∧
    ((renderTextWithHighlights analysisReds text reds).filter
        (fun sg => sg.isRedacted)).map Segment.text =
      (redactedRanges analysisReds text reds).map
        (fun r => (text.drop r.1).take (r.2 - r.1)) := by
  unfold renderTextWithHighlights redactedRanges
  by_cases h : reds = []
  · simp [h]
  · simp only [h, if_false]
    exact ⟨emitRanges_pairwise text _ 0, emitRanges_text text _ 0⟩
/-! ### Detection tagging (claim C5) -/

theorem mem_insertByPos {text : List Char} {a x : TaggedRedaction} :
    ∀ {l : List TaggedRedaction}, x ∈ insertByPos text a l → x = a ∨ x ∈ l := by
  intro l
  induction l with
  | nil =>
    intro h
    simp only [insertByPos] at h
    exact Or.inl (List.mem_singleton.mp h)
  | cons b bs ih =>
    intro h
    rw [insertByPos] at h
    by_cases hc : firstPos text a.item.text < firstPos text b.item.text
    · rw [if_pos hc] at h
      rcases List.mem_cons.mp h with h | h
      · exact Or.inl h
      · exact Or.inr h
    · rw [if_neg hc] at h
      rcases List.mem_cons.mp h with h | h
      · exact Or.inr (List.mem_cons.mpr (Or.inl h))
      · rcases ih h with h | h
        · exact Or.inl h
        · exact Or.inr (List.mem_cons.mpr (Or.inr h))

theorem mem_sortByPos {text : List Char} {x : TaggedRedaction} :
    ∀ {l : List TaggedRedaction}, x ∈ sortByPos text l → x ∈ l := by
  intro l
  induction l with
  | nil => intro h; simp [sortByPos] at h
  | cons b bs ih =>
    intro h
    simp only [sortByPos, List.foldr_cons] at h
    rcases mem_insertByPos h with h | h
    · exact List.mem_cons.mpr (Or.inl h)
    · exact List.mem_cons.mpr (Or.inr (ih h))

theorem mem_enumFrom {α : Type} :
    ∀ (l : List α) (k : Nat) (p : Nat × α), p ∈ enumFrom k l →
      ∃ (j : Nat) (h : j < l.length), p.1 = k + j ∧ p.2 = l.get ⟨j, h⟩ := by
  intro l
  induction l with
  | nil => intro k p h; simp [enumFrom] at h
  | cons a as ih =>
    intro k p h
    rw [enumFrom] at h
    rcases List.mem_cons.mp h with h | h
    · subst h
      exact ⟨0, by simp, by simp, by simp⟩
    · obtain ⟨j, hj, h1, h2⟩ := ih (k + 1) p h
      refine ⟨j + 1, by simpa using hj, by omega, by simpa using h2⟩

theorem jsIndexOf_get {α : Type} [DecidableEq α] :
    ∀ (l : List α), l.Nodup → ∀ (j : Nat) (h : j < l.length),
      jsIndexOf l (l.get ⟨j, h⟩) = j := by
  intro l
  induction l with
  | nil => intro _ j h; simp at h
  | cons x xs ih =>
    intro hnd j h
    rcases List.nodup_cons.mp hnd with ⟨hx, hxs⟩
    cases j with
    | zero => simp [jsIndexOf]
    | succ j =>
      have hj : j < xs.length := by simpa using h
      have hget : (x :: xs).get ⟨j + 1, h⟩ = xs.get ⟨j, hj⟩ := by simp
      have hne : ¬ x = xs.get ⟨j, hj⟩ := by
        intro he
        exact hx (he ▸ xs.get_mem j hj)
      rw [hget, jsIndexOf, if_neg hne, ih hxs j hj]
      have hjne : ((j : Int)) ≠ -1 := by omega
      simp [hjne]

theorem sortedRedactions_tag {ar : List RedactionItem} (hnd : ar.Nodup)
    (text : List Char) :
    ∀ t ∈ sortedRedactions (some ar) text ar,
      ∃ (j : Nat) (h : j < ar.length),
        t.globalIndex = (j : Int) ∧ t.item = ar.get ⟨j, h⟩ := by
  intro t ht
  have ht1 := mem_sortByPos ht
  rw [List.mem_filter] at ht1
  obtain ⟨ht2, _⟩ := ht1
  rw [tagRedactions] at ht2
  obtain ⟨p, hp, rfl⟩ := List.mem_map.mp ht2
  obtain ⟨j, hj, hp1, hp2⟩ := mem_enumFrom ar 0 p hp
  refine ⟨j, hj, ?_, by simpa using hp2⟩
  have hidx : jsIndexOf ar p.2 = j := by
    rw [hp2]; exact jsIndexOf_get ar hnd j hj
  simp only [hidx]
  by_cases hj0 : (j : Int) = 0
  · simp [hj0]; omega
  · simp [hj0]

theorem emitSegments_redacted (text : List Char) :
    ∀ (ts : List TaggedRedaction) (c : Nat) (sg : Segment),
      sg ∈ emitSegments text ts c → sg.isRedacted = true →
      ∃ t ∈ ts, sg.text = t.item.text ∧ sg.redactionIndex = some t.globalIndex := by
  intro ts
  induction ts with
  | nil =>
    intro c sg hsg hred
    by_cases h : c < text.length
    · rw [emitSegments, if_pos h] at hsg
      rcases List.mem_singleton.mp hsg with rfl
      simp at hred
    · rw [emitSegments, if_neg h] at hsg
      simp at hsg
  | cons t ts ih =>
    intro c sg hsg hred
    cases hs : searchFrom text t.item.text c with
    | none =>
      rw [emitSegments, hs] at hsg
      obtain ⟨u, hu, h1, h2⟩ := ih c sg hsg hred
      exact ⟨u, List.mem_cons_of_mem _ hu, h1, h2⟩
    | some s =>
      rw [emitSegments, hs] at hsg
      rw [List.mem_append] at hsg
      rcases hsg with hsg | hsg
      · by_cases hcs : c < s
        · rw [if_pos hcs] at hsg
          rcases List.mem_singleton.mp hsg with rfl
          simp at hred
        · rw [if_neg hcs] at hsg
          simp at hsg
      · rcases List.mem_cons.mp hsg with hsg | hsg
        · subst hsg
          exact ⟨t, List.mem_cons_self t ts, rfl, rfl⟩
        · obtain ⟨u, hu, h1, h2⟩ := ih _ sg hsg hred
          exact ⟨u, List.mem_cons_of_mem _ hu, h1, h2⟩

/-- C5 (amended): when the segmenter is applied to the analysis's own
redaction list with pairwise-distinct entries, every redacted segment
is tagged with the analysis-list index of the detection whose text was
matched at that span; and on the worked example the output is exactly
the four segments `["Name: ", plain]`, `["John Smith", redacted 0]`,
`[", SSN: ", plain]`, `["123-45-6789", redacted 1]`. -/
theorem claim_C5_redacted_tags
    (ar : List RedactionItem) (text : List Char) (hnd : ar.Nodup) :
    (∀ sg ∈ renderTextWithHighlights (some ar) text ar, sg.isRedacted = true →
      ∃ (j : Nat) (h : j < ar.length),
        sg.redactionIndex = some (j : Int) ∧ sg.text = (ar.get ⟨j, h⟩).text) ∧
    renderTextWithHighlights (some [exampleDetection1, exampleDetection2])
        exampleText [exampleDetection1, exampleDetection2] =
      [⟨"Name: ".data, false, none⟩,
       ⟨"John Smith".data, true, some 0⟩,
       ⟨", SSN: ".data, false, none⟩,
       ⟨"123-45-6789".data, true, some 1⟩] := by
  constructor
  · intro sg hsg hred
    unfold renderTextWithHighlights at hsg
    by_cases h : ar = []
    · rw [if_pos h] at hsg
      rcases List.mem_singleton.mp hsg with rfl
      simp at hred
    · rw [if_neg h] at hsg
      obtain ⟨t, ht, h1, h2⟩ := emitSegments_redacted text _ 0 sg hsg hred
      obtain ⟨j, hj, hg, hitem⟩ := sortedRedactions_tag hnd text t ht
      exact ⟨j, hj, by rw [h2, hg], by rw [h1, hitem]⟩
  · decide

/-- C5, as stated, is false: with analysis redaction list
`[overlapItemA, overlapItemB]` (texts `"aa"`, `"bb"`) and the same two
detections passed in reverse order over the text `"aabb"`, the
`indexOf(r) || idx` fallback tags the segment `"aa"` with index 1,
although the detection at index 1 of the analysis list is
`overlapItemB`, whose text is `"bb"`. -/
theorem claim_C5_counterexample :
    renderTextWithHighlights (some [overlapItemA, overlapItemB]) "aabb".data
        [overlapItemB, overlapItemA] =
      [⟨"aa".data, true, some 1⟩, ⟨"bb".data, true, some 1⟩] ∧
    overlapItemA.text = "aa".data ∧
    overlapItemB.text ≠ "aa".data := by
  exact ⟨by decide, by decide, by decide⟩

/-- Witness for C5: the amended theorem applied to the worked example's
redaction list and the segment `["John Smith", redacted 0]`. -/
theorem claim_C5_redacted_tags_witness :
    ∃ (j : Nat) (h : j < ([exampleDetection1, exampleDetection2] : List RedactionItem).length),
      (⟨"John Smith".data, true, some 0⟩ : Segment).redactionIndex = some (j : Int) ∧
      (⟨"John Smith".data, true, some 0⟩ : Segment).text =
        (([exampleDetection1, exampleDetection2] : List RedactionItem).get ⟨j, h⟩).text :=
  (claim_C5_redacted_tags [exampleDetection1, exampleDetection2] exampleText
      (by decide)).1
    ⟨"John Smith".data, true, some 0⟩ (by decide) (by decide)

/-! ### Record (JavaScript object) lemmas -/

theorem recordLookup_set_self (m : List (List Char × Analysis))
    (k : List Char) (v : Analysis) :
    recordLookup (recordSet m k v) k = some v := by
  induction m with
  | nil => simp [recordSet, recordLookup]
  | cons p ps ih =>
    by_cases h : p.1 = k
    · simp [recordSet, h, recordLookup]
    · simpa [recordSet, h, recordLookup] using ih

theorem recordLookup_set_other (m : List (List Char × Analysis))
    (k k' : List Char) (v : Analysis) (h : k' ≠ k) :
    recordLookup (recordSet m k v) k' = recordLookup m k' := by
  induction m with
  | nil => simp [recordSet, recordLookup, Ne.symm h]
  | cons p ps ih =>
    by_cases hp : p.1 = k
    · have hk : ¬ (k = k') := fun he => h he.symm
      have hp'' : ¬ (p.1 = k') := by rw [hp]; exact hk
      simp [recordSet, hp, recordLookup, hp'', hk]
    · by_cases hq : p.1 = k'
      · simp [recordSet, hp, recordLookup, hq, h]
      · simpa [recordSet, hp, recordLookup, hq] using ih

/-! ### Fresh detection ids in `addAnalysis` (claim C3) -/

theorem enumFrom_map_val {α β : Type} (f : Nat → β) :
    ∀ (l : List α) (k : Nat),
      (enumFrom k l).map (fun p => f p.1) =
        (List.range l.length).map (fun j => f (k + j)) := by
  intro l
  induction l with
  | nil => intro k; simp [enumFrom]
  | cons a as ih =>
    intro k
    rw [enumFrom, List.map_cons, ih (k + 1), List.length_cons,
      List.range_succ_eq_map, List.map_cons, List.map_map]
    refine congrArg₂ List.cons (congrArg f (by omega)) ?_
    refine List.map_congr_left (fun j _ => congrArg f (by omega))

/-- C3 (amended): `addAnalysis` mints a fresh id of the form
`det_<suffix>` for every detection — including those that already carry
an id, which are overwritten — and stores the analysis under its own
id; every stored detection id is non-empty, and the ids are pairwise
distinct whenever the minted values are. -/
theorem claim_C3_addAnalysis_ids (st : AppState) (a : Analysis)
    (suffix : Nat → List Char)
    (hnd : ((List.range a.detections.length).map (detId suffix)).Nodup) :
    ∃ a', recordLookup (addAnalysis (detId suffix) st a).analyses a.id = some a' ∧
      a'.detections =
        (enumFrom 0 a.detections).map (fun p => { p.2 with id := detId suffix p.1 }) ∧
      (∀ d ∈ a'.detections, d.id ≠ []) ∧
      (a'.detections.map Detection.id).Nodup := by
  refine ⟨_, recordLookup_set_self _ _ _, rfl, ?_, ?_⟩
  · intro d hd
    obtain ⟨p, _, rfl⟩ := List.mem_map.mp hd
    simp [detId]
  · have hids : ((enumFrom 0 a.detections).map
        (fun p => { p.2 with id := detId suffix p.1 } : Nat × Detection → Detection)).map
          Detection.id =
        (List.range a.detections.length).map (detId suffix) := by
      rw [List.map_map]
      have := enumFrom_map_val (detId suffix) a.detections 0
      simpa [Function.comp] using this
    rw [hids]
    exact hnd

/-- C3, as stated, is false: `addAnalysis` reassigns the id of a
detection that already has one.  Storing `c3Analysis`, whose only
detection carries the id `"d1"`, leaves that detection with the freshly
minted id `"det_x"` instead. -/
theorem claim_C3_counterexample :
    (recordLookup (addAnalysis (detId (fun _ => "x".data)) initialState c3Analysis).analyses
        "an1".data).map (fun a => a.detections.map Detection.id) =
      some ["det_x".data] ∧
    c3Detection.id = "d1".data ∧
    "det_x".data ≠ "d1".data := by
  exact ⟨by decide, by decide, by decide⟩

/-- Witness for C3: the amended theorem applied to the pristine store,
`c3Analysis` and the suffix generator `fun _ => "x"`. -/
theorem claim_C3_addAnalysis_ids_witness :
    ∃ a', recordLookup
        (addAnalysis (detId (fun _ => "x".data)) initialState c3Analysis).analyses
          c3Analysis.id = some a' ∧
      a'.detections =
        (enumFrom 0 c3Analysis.detections).map
          (fun p => { p.2 with id := detId (fun _ => "x".data) p.1 }) ∧
      (∀ d ∈ a'.detections, d.id ≠ []) ∧
      (a'.detections.map Detection.id).Nodup :=
  claim_C3_addAnalysis_ids initialState c3Analysis (fun _ => "x".data) (by decide)

/-! ### Engine-response normalization (claim C4) -/

/-- C4 (amended): the normalization fills missing fields with the
documented defaults and keeps supplied truthy values, but the `||`
defaulting also replaces supplied *falsy* values: a supplied confidence
of `0` becomes `0.9`, and a supplied empty-string `id` or
`detection_reason` is replaced by its default.  Supplied positions of
`0` coincide with the default `0`, so every supplied position is
preserved. -/
theorem claim_C4_normalization (idGen : Nat → List Char) (i : Nat)
    (d : RawDetection) :
    (formatDetection idGen i d).text = d.text ∧
    (formatDetection idGen i d).category = d.category ∧
    (formatDetection idGen i d).pattern_name = d.pattern_name ∧
    (formatDetection idGen i d).context = d.context ∧
    (d.approved = none → (formatDetection idGen i d).approved = true) ∧
    (d.approved = some true → (formatDetection idGen i d).approved = true) ∧
    (d.approved = some false → (formatDetection idGen i d).approved = false) ∧
    (d.id = none → (formatDetection idGen i d).id = idGen i) ∧
    (∀ s, d.id = some s → s ≠ [] → (formatDetection idGen i d).id = s) ∧
    (d.id = some [] → (formatDetection idGen i d).id = idGen i) ∧
    (d.detection_reason = none →
      (formatDetection idGen i d).detection_reason = "Automatically detected".data) ∧
    (∀ s, d.detection_reason = some s → s ≠ [] →
      (formatDetection idGen i d).detection_reason = s) ∧
    (d.detection_reason = some [] →
      (formatDetection idGen i d).detection_reason = "Automatically detected".data) ∧
    (d.page_number = none → (formatDetection idGen i d).page_number = 0) ∧
    (∀ v, d.page_number = some v → (formatDetection idGen i d).page_number = v) ∧
    (d.start_pos = none → (formatDetection idGen i d).start_pos = 0) ∧
    (∀ v, d.start_pos = some v → (formatDetection idGen i d).start_pos = v) ∧
    (d.end_pos = none → (formatDetection idGen i d).end_pos = 0) ∧
    (∀ v, d.end_pos = some v → (formatDetection idGen i d).end_pos = v) ∧
    (d.confidence = none → (formatDetection idGen i d).confidence = 9 / 10) ∧
    (∀ v, d.confidence = some v → v ≠ 0 → (formatDetection idGen i d).confidence = v) ∧
    (d.confidence = some 0 → (formatDetection idGen i d).confidence = 9 / 10) := by
  refine ⟨rfl, rfl, rfl, rfl, ?_, ?_, ?_, ?_, ?_, ?_, ?_, ?_, ?_, ?_, ?_, ?_, ?_,
    ?_, ?_, ?_, ?_, ?_⟩
  · intro h; simp [formatDetection, h]
  · intro h; simp [formatDetection, h]
  · intro h; simp [formatDetection, h]
  · intro h; simp [formatDetection, jsOrStr, h]
  · intro s hs h0; simp [formatDetection, jsOrStr, hs, h0]
  · intro h; simp [formatDetection, jsOrStr, h]
  · intro h; simp [formatDetection, jsOrStr, h]
  · intro s hs h0; simp [formatDetection, jsOrStr, hs, h0]
  · intro h; simp [formatDetection, jsOrStr, h]
  · intro h; simp [formatDetection, jsOrInt, h]
  · intro v hv
    by_cases h0 : v = 0 <;> simp [formatDetection, jsOrInt, hv, h0]
  · intro h; simp [formatDetection, jsOrInt, h]
  · intro v hv
    by_cases h0 : v = 0 <;> simp [formatDetection, jsOrInt, hv, h0]
  · intro h; simp [formatDetection, jsOrInt, h]
  · intro v hv
    by_cases h0 : v = 0 <;> simp [formatDetection, jsOrInt, hv, h0]
  · intro h; simp [formatDetection, jsOrRat, h]
  · intro v hv h0; simp [formatDetection, jsOrRat, hv, h0]
  · intro h; simp [formatDetection, jsOrRat, h]

/-- C4, as stated, is false: the claim requires a supplied confidence
of `0` to be preserved, but `d.confidence || 0.9` treats `0` as falsy,
so `c4Raw`, which supplies `confidence: 0`, is normalized to `0.9`. -/
theorem claim_C4_counterexample :
    c4Raw.confidence = some 0 ∧
    (formatDetection (fun _ => "fresh".data) 0 c4Raw).confidence = 9 / 10 ∧
    (9 / 10 : ℚ) ≠ 0 := by
  refine ⟨rfl, ?_, by norm_num⟩
  simp [formatDetection, c4Raw, jsOrRat]

/-- Witness for C4: the amended theorem applied to `c4WitnessRaw`,
which supplies `page_number: 5`. -/
theorem claim_C4_normalization_witness :
    (formatDetection (fun _ => "gen0".data) 0 c4WitnessRaw).page_number = 5 :=
  ((claim_C4_normalization (fun _ => "gen0".data) 0
      c4WitnessRaw).2.2.2.2.2.2.2.2.2.2.2.2.2.2.1) 5 rfl

/-! ### Single-flight analysis orchestration (claims C2 and C8) -/

/-- C2 (amended): under the rapid-succession schedule — a first call
begins, a second call begins while the first is in flight, the first
call's request then succeeds — the second call is collapsed (no
request, no state change, no result) and the run performs exactly one
network call and exactly one store commit, made via
`setCurrentAnalysis`; the `analyses` mapping is never written by
`startAnalysis`. -/
theorem claim_C2_single_flight (s0 : OrchState) (idGen : Nat → List Char)
    (raw : RawAnalysis) (h : s0.guard = false) :
    (startAnalysisBegin s0).2 = BeginResult.started ∧
    (startAnalysisBegin (startAnalysisBegin s0).1).2 = BeginResult.skipped ∧
    (startAnalysisBegin (startAnalysisBegin s0).1).1 = (startAnalysisBegin s0).1 ∧
    (startAnalysisResume idGen (startAnalysisBegin (startAnalysisBegin s0).1).1
        (.ok raw)).1.networkCalls = s0.networkCalls + 1 ∧
    (startAnalysisResume idGen (startAnalysisBegin (startAnalysisBegin s0).1).1
        (.ok raw)).1.store.currentAnalysis = some (formatAnalysis idGen raw) ∧
    (startAnalysisResume idGen (startAnalysisBegin (startAnalysisBegin s0).1).1
        (.ok raw)).1.store.analyses = s0.store.analyses ∧
    (startAnalysisResume idGen (startAnalysisBegin (startAnalysisBegin s0).1).1
        (.ok raw)).1.store.documents = s0.store.documents ∧
    (startAnalysisResume idGen (startAnalysisBegin (startAnalysisBegin s0).1).1
        (.ok raw)).1.store.currentDocument = s0.store.currentDocument ∧
    (startAnalysisResume idGen (startAnalysisBegin (startAnalysisBegin s0).1).1
        (.ok raw)).1.guard = false ∧
    (startAnalysisResume idGen (startAnalysisBegin (startAnalysisBegin s0).1).1
        (.ok raw)).2 = Except.ok (formatAnalysis idGen raw) := by
  simp [startAnalysisBegin, startAnalysisResume, setCurrentAnalysis, h]

/-- C2, as stated, is false on its commit target: on the concrete
rapid-succession run `c2Run` the engine result is committed to
`currentAnalysis`, while the `analyses` mapping receives zero commits —
not the one commit the claim requires. -/
theorem claim_C2_counterexample :
    c2Run.1.networkCalls = 1 ∧
    c2Run.1.store.currentAnalysis =
      some (formatAnalysis (fun _ => "g0".data) c2Raw) ∧
    c2Run.1.store.analyses = [] ∧
    initialState.analyses = [] :=
  ⟨rfl, rfl, rfl, rfl⟩

/-- Witness for C2: the amended theorem applied to the idle
orchestrator and the concrete response `c2Raw`. -/
theorem claim_C2_single_flight_witness :
    (startAnalysisBegin (startAnalysisBegin idleOrch).1).2 = BeginResult.skipped ∧
    (startAnalysisResume (fun _ => "g0".data)
        (startAnalysisBegin (startAnalysisBegin idleOrch).1).1
        (.ok c2Raw)).1.networkCalls = idleOrch.networkCalls + 1 ∧
    (startAnalysisResume (fun _ => "g0".data)
        (startAnalysisBegin (startAnalysisBegin idleOrch).1).1
        (.ok c2Raw)).1.store.analyses = idleOrch.store.analyses :=
  ⟨(claim_C2_single_flight idleOrch (fun _ => "g0".data) c2Raw rfl).2.1,
   (claim_C2_single_flight idleOrch (fun _ => "g0".data) c2Raw rfl).2.2.2.1,
   (claim_C2_single_flight idleOrch (fun _ => "g0".data) c2Raw rfl).2.2.2.2.2.1⟩

/-- C8: when the detection request fails, nothing is committed to the
store (which is left entirely unchanged), the single-flight guard is
cleared so that a retry starts a fresh run, and the failure is
re-thrown to the caller. -/
theorem claim_C8_failure_propagation (s0 : OrchState) (idGen : Nat → List Char)
    (e : List Char) (h : s0.guard = false) :
    (startAnalysisResume idGen (startAnalysisBegin s0).1 (.error e)).1.store = s0.store ∧
    (startAnalysisResume idGen (startAnalysisBegin s0).1 (.error e)).1.guard = false ∧
    (startAnalysisResume idGen (startAnalysisBegin s0).1 (.error e)).2 = Except.error e ∧
    (startAnalysisBegin
        (startAnalysisResume idGen (startAnalysisBegin s0).1 (.error e)).1).2 =
      BeginResult.started := by
  simp [startAnalysisBegin, startAnalysisResume, h]

/-- Witness for C8: the failure theorem applied to the idle
orchestrator and a concrete network error. -/
theorem claim_C8_failure_propagation_witness :
    (startAnalysisResume (fun _ => "g1".data) (startAnalysisBegin idleOrch).1
        (.error "network error".data)).1.store = idleOrch.store ∧
    (startAnalysisResume (fun _ => "g1".data) (startAnalysisBegin idleOrch).1
        (.error "network error".data)).1.guard = false ∧
    (startAnalysisResume (fun _ => "g1".data) (startAnalysisBegin idleOrch).1
        (.error "network error".data)).2 = Except.error "network error".data ∧
    (startAnalysisBegin
        (startAnalysisResume (fun _ => "g1".data) (startAnalysisBegin idleOrch).1
          (.error "network error".data)).1).2 = BeginResult.started :=
  claim_C8_failure_propagation idleOrch (fun _ => "g1".data) "network error".data rfl

/-! ### The redaction applier (claim C7) -/

/-- C7: with a current document and analysis, an empty approved subset
fails locally — no network call, no download — and a non-empty approved
subset with a successful request triggers a download named
`redacted_<filename>`; a failed request triggers no download. -/
theorem claim_C7_apply_redactions (manualId : List Char) (doc : Document)
    (ca : Analysis) (net : Except (List Char) Blob) :
    (ca.detections.filter (fun d => d.approved) = [] →
      (handleApplyRedactions manualId (some doc) (some ca) net).networkCalled = false ∧
      (handleApplyRedactions manualId (some doc) (some ca) net).download = none) ∧
    (ca.detections.filter (fun d => d.approved) ≠ [] → ∀ b, net = .ok b →
      (handleApplyRedactions manualId (some doc) (some ca) net).download =
        some ("redacted_".data ++ doc.filename)) ∧
    (∀ err, net = .error err →
      (handleApplyRedactions manualId (some doc) (some ca) net).download = none) := by
  refine ⟨?_, ?_, ?_⟩
  · intro h
    simp [handleApplyRedactions, h]
  · intro h b hb
    subst hb
    simp [handleApplyRedactions, h]
  · intro err he
    subst he
    by_cases h : ca.detections.filter (fun d => d.approved) = [] <;>
      simp [handleApplyRedactions, h]

/-- Witness for C7: applying with `report.pdf` and one approved
detection downloads `redacted_report.pdf`; applying with no approved
detection makes no network call. -/
theorem claim_C7_apply_redactions_witness :
    (handleApplyRedactions "m1".data (some c7Document) (some c7Analysis)
        (.ok [1])).download = some "redacted_report.pdf".data ∧
    (handleApplyRedactions "m1".data (some c7Document) (some c7EmptyAnalysis)
        (.ok [1])).networkCalled = false := by
  constructor
  · have h := (claim_C7_apply_redactions "m1".data c7Document c7Analysis
      (.ok [1])).2.1 (by decide) [1] rfl
    rw [h]
    decide
  · exact ((claim_C7_apply_redactions "m1".data c7Document c7EmptyAnalysis
      (.ok [1])).1 (by decide)).1

/-! ### `updateDetection` (claim C9) -/

theorem updateInList_not_found {detectionId : List Char} {u : DetectionUpdate} :
    ∀ {ds : List Detection}, (∀ d ∈ ds, d.id ≠ detectionId) →
      updateInList detectionId u ds = none := by
  intro ds
  induction ds with
  | nil => intro _; rfl
  | cons d ds ih =>
    intro h
    rw [updateInList, if_neg (h d (List.mem_cons_self d ds)),
      ih (fun d' hd' => h d' (List.mem_cons_of_mem _ hd'))]
    rfl

theorem updateInList_found {detectionId : List Char} {u : DetectionUpdate} :
    ∀ (pre : List Detection) (d : Detection) (post : List Detection),
      d.id = detectionId → (∀ d' ∈ pre, d'.id ≠ detectionId) →
      updateInList detectionId u (pre ++ d :: post) =
        some (pre ++ applyUpdate d u :: post) := by
  intro pre
  induction pre with
  | nil =>
    intro d post hd _
    simp [updateInList, hd]
  | cons p ps ih =>
    intro d post hd hpre
    rw [List.cons_append, updateInList,
      if_neg (hpre p (List.mem_cons_self p ps)),
      ih d post hd (fun d' hd' => hpre d' (List.mem_cons_of_mem _ hd'))]
    rfl

/-- C9: `updateDetection` searches only `currentAnalysis`: when no
detection of the current analysis carries the id (including when there
is no current analysis) the whole state is left unchanged and no error
is raised; when the first match is found, the given fields are merged
into it and the mutated analysis is written back into `analyses` under
its own id. -/
theorem claim_C9_updateDetection (st : AppState) (detectionId : List Char)
    (u : DetectionUpdate) :
    ((∀ ca, st.currentAnalysis = some ca → ∀ d ∈ ca.detections, d.id ≠ detectionId) →
      updateDetection st detectionId u = st) ∧
    (∀ ca pre d post, st.currentAnalysis = some ca →
      ca.detections = pre ++ d :: post → d.id = detectionId →
      (∀ d' ∈ pre, d'.id ≠ detectionId) →
      updateDetection st detectionId u =
        { st with
          currentAnalysis :=
            some { ca with detections := pre ++ applyUpdate d u :: post }
          analyses := recordSet st.analyses ca.id
            { ca with detections := pre ++ applyUpdate d u :: post } }) := by
  constructor
  · intro h
    cases hca : st.currentAnalysis with
    | none => simp [updateDetection, hca]
    | some ca => simp [updateDetection, hca, updateInList_not_found (h ca hca)]
  · intro ca pre d post hca hdet hd hpre
    simp [updateDetection, hca, hdet, updateInList_found pre d post hd hpre]

/-- Witness for C9: on `reviewState`, updating an unknown id is a
no-op, and rejecting `det_1` merges `{approved: false}` into the
detection and writes the analysis back. -/
theorem claim_C9_updateDetection_witness :
    updateDetection reviewState "nope".data rejectUpdate = reviewState ∧
    updateDetection reviewState "det_1".data rejectUpdate =
      { reviewState with
        currentAnalysis :=
          some { c7Analysis with detections := [applyUpdate c7Detection rejectUpdate] }
        analyses := recordSet reviewState.analyses c7Analysis.id
          { c7Analysis with detections := [applyUpdate c7Detection rejectUpdate] } } := by
  constructor
  · refine (claim_C9_updateDetection reviewState "nope".data rejectUpdate).1 ?_
    intro ca hca d hd
    have hca' : c7Analysis = ca := by simpa [reviewState] using hca
    subst hca'
    have hd' : d = c7Detection := by simpa [c7Analysis] using hd
    subst hd'
    decide
  · exact (claim_C9_updateDetection reviewState "det_1".data rejectUpdate).2
      c7Analysis [] c7Detection [] rfl rfl rfl (by simp)

/-! ### Bulk approve/reject frame conditions (claim C10) -/

/-- C10: with no current analysis, `approveAllDetections` and
`rejectAllDetections` leave the entire store state unchanged; with a
current analysis, they change only the `approved` flag of its
detections and the corresponding `analyses` entry — every other state
field, and every other `analyses` key, is untouched. -/
theorem claim_C10_bulk_frame (st : AppState) :
    (st.currentAnalysis = none →
      approveAllDetections st = st ∧ rejectAllDetections st = st) ∧
    (∀ ca, st.currentAnalysis = some ca →
      (approveAllDetections st =
        { st with
          currentAnalysis := some { ca with
            detections := ca.detections.map (fun d => { d with approved := true }) }
          analyses := recordSet st.analyses ca.id
            { ca with
              detections := ca.detections.map (fun d => { d with approved := true }) } }) ∧
      (rejectAllDetections st =
        { st with
          currentAnalysis := some { ca with
            detections := ca.detections.map (fun d => { d with approved := false }) }
          analyses := recordSet st.analyses ca.id
            { ca with
              detections := ca.detections.map (fun d => { d with approved := false }) } }) ∧
      (∀ k, k ≠ ca.id →
        recordLookup (approveAllDetections st).analyses k = recordLookup st.analyses k ∧
        recordLookup (rejectAllDetections st).analyses k = recordLookup st.analyses k)) := by
  constructor
  · intro h
    constructor <;> simp [approveAllDetections, rejectAllDetections, h]
  · intro ca hca
    refine ⟨by simp [approveAllDetections, hca], by simp [rejectAllDetections, hca], ?_⟩
    intro k hk
    constructor <;>
      simp [approveAllDetections, rejectAllDetections, hca,
        recordLookup_set_other _ _ _ _ hk]

/-- Witness for C10: the frame theorem applied to the pristine store
(no current analysis) and to `reviewState` (current analysis
`c7Analysis`). -/
theorem claim_C10_bulk_frame_witness :
    (approveAllDetections initialState = initialState ∧
      rejectAllDetections initialState = initialState) ∧
    approveAllDetections reviewState =
      { reviewState with
        currentAnalysis := some { c7Analysis with
          detections := c7Analysis.detections.map (fun d => { d with approved := true }) }
        analyses := recordSet reviewState.analyses c7Analysis.id
          { c7Analysis with
            detections := c7Analysis.detections.map (fun d => { d with approved := true }) } } :=
  ⟨(claim_C10_bulk_frame initialState).1 rfl,
   ((claim_C10_bulk_frame reviewState).2 c7Analysis rfl).1⟩

end OpenRecord
